import Mathlib

/-!
Verification of the message-tree query engine of
`backend/oasst_backend/api/v1/messages.py` (Open-Assistant).

The visible source is the endpoint layer `messages.py`; the repository layer
(`PromptRepository`) and `utils` helpers it calls are not part of the provided
sources, so they are modelled from the specification (doc comments marked
`Modelled from the spec:`).  Timestamps are modelled as naturals, ids
(UUIDs in the source) as naturals with their total order, and the message
store as a list of rows.
-/

deriving instance DecidableEq for Except

namespace Oasst

/-- A message row, with the columns used by the endpoints of `messages.py`:
identity (`id`), tree structure (`parent_id`, `message_tree_id`), the sort
key component `created_date`, the visibility flags `deleted` and `reviewed`,
and the author/filter columns. -/
structure Message where
  id : Nat
  parent_id : Option Nat
  message_tree_id : Nat
  created_date : Nat
  deleted : Bool
  reviewed : Bool
  user_id : Option Nat
  auth_method : Option Nat
  username : Option Nat
  api_client_id : Option Nat
deriving DecidableEq, Repr

/-- Non-strict lexicographic order on the composite sort key
`(created_date, id)`, ascending. -/
def ascLE (a b : Message) : Prop :=
  a.created_date < b.created_date ∨ (a.created_date = b.created_date ∧ a.id ≤ b.id)

instance : DecidableRel ascLE := fun a b => by
  unfold ascLE; infer_instance

/-- Strict lexicographic order on `(created_date, id)`, ascending. -/
def ascLT (a b : Message) : Prop :=
  a.created_date < b.created_date ∨ (a.created_date = b.created_date ∧ a.id < b.id)

instance : DecidableRel ascLT := fun a b => by
  unfold ascLT; infer_instance

/-- The ordering used by `ORDER BY created_date, id` with direction `desc`:
`ordRel desc a b` holds when `a` may come before `b` in the output. -/
def ordRel (desc : Bool) (a b : Message) : Prop :=
  if desc then ascLE b a else ascLE a b

instance (desc : Bool) : DecidableRel (ordRel desc) := fun a b => by
  unfold ordRel; infer_instance

/-- Strict version of `ordRel`: `a` comes strictly before `b`. -/
def ordLT (desc : Bool) (a b : Message) : Prop :=
  if desc then ascLT b a else ascLT a b

instance (desc : Bool) : DecidableRel (ordLT desc) := fun a b => by
  unfold ordLT; infer_instance

instance instIsTotalAscLE : IsTotal Message ascLE := by
  constructor
  intro a b
  unfold ascLE
  rcases Nat.lt_trichotomy a.created_date b.created_date with h | h | h
  · exact Or.inl (Or.inl h)
  · rcases Nat.le_total a.id b.id with h2 | h2
    · exact Or.inl (Or.inr ⟨h, h2⟩)
    · exact Or.inr (Or.inr ⟨h.symm, h2⟩)
  · exact Or.inr (Or.inl h)

instance instIsTransAscLE : IsTrans Message ascLE := by
  constructor
  intro a b c hab hbc
  unfold ascLE at *
  rcases hab with h1 | ⟨h1, h1'⟩ <;> rcases hbc with h2 | ⟨h2, h2'⟩
  · exact Or.inl (Nat.lt_trans h1 h2)
  · exact Or.inl (h2 ▸ h1)
  · exact Or.inl (h1 ▸ h2)
  · exact Or.inr ⟨h1.trans h2, Nat.le_trans h1' h2'⟩

instance (desc : Bool) : IsTotal Message (ordRel desc) := by
  constructor
  intro a b
  cases desc <;> simp only [ordRel, if_true, if_false, Bool.false_eq_true] <;>
    first
    | exact IsTotal.total (r := ascLE) a b
    | exact (IsTotal.total (r := ascLE) a b).symm

instance (desc : Bool) : IsTrans Message (ordRel desc) := by
  constructor
  intro a b c hab hbc
  cases desc <;> simp only [ordRel, if_true, if_false, Bool.false_eq_true] at * <;>
    first
    | exact IsTrans.trans (r := ascLE) a b c hab hbc
    | exact IsTrans.trans (r := ascLE) c b a hbc hab

/-- The optional row filters of the repository query
(`query_messages_ordered_by_created_date` keyword filters other than the
cursor bounds, the direction and the limit). -/
structure QueryFilters where
  user_id : Option Nat
  auth_method : Option Nat
  username : Option Nat
  api_client_id : Option Nat
  only_roots : Bool
  deleted : Option Bool
deriving DecidableEq, Repr

/-- An optional equality filter on an optional column. -/
def matchOpt (f : Option Nat) (v : Option Nat) : Bool :=
  match f with
  | none => true
  | some x => v == some x

/-- Modelled from the spec: the row predicate of the repository query
(§4.1 `queryFiltered`, §4.5 query parameters) — optional equality filters on
the author columns, the tree-root-only restriction, and the `deleted`
predicate (`deleted = None` disables the deletion filter). -/
def rowMatches (f : QueryFilters) (m : Message) : Bool :=
  matchOpt f.user_id m.user_id &&
  matchOpt f.auth_method m.auth_method &&
  matchOpt f.username m.username &&
  matchOpt f.api_client_id m.api_client_id &&
  (!f.only_roots || m.parent_id == none) &&
  (match f.deleted with
   | none => true
   | some d => m.deleted == d)

/-- Modelled from the spec: the lower cursor bound (§4.5 boundary semantics).
With both a timestamp and an id the comparison is the strict composite one;
with only a timestamp the `gte_created_date` parameter is the inclusive
`created_date >= bound`. -/
def lowerOk (gte_created_date gt_id : Option Nat) (m : Message) : Bool :=
  match gte_created_date, gt_id with
  | none, _ => true
  | some t, none => decide (t ≤ m.created_date)
  | some t, some i => decide (t < m.created_date ∨ (t = m.created_date ∧ i < m.id))

/-- Modelled from the spec: the upper cursor bound, mirrored from `lowerOk`
(§4.5 boundary semantics). -/
def upperOk (lte_created_date lt_id : Option Nat) (m : Message) : Bool :=
  match lte_created_date, lt_id with
  | none, _ => true
  | some t, none => decide (m.created_date ≤ t)
  | some t, some i => decide (m.created_date < t ∨ (m.created_date = t ∧ m.id < i))

/-- Modelled from the spec: `PromptRepository.query_messages_ordered_by_created_date`
is not part of the provided sources.  Per §4.1/§4.5 it filters the store by
the optional filters and the cursor bounds, orders the rows by the composite
key `(created_date, id)` ascending or descending per `desc`, and applies the
optional limit. -/
def query_messages_ordered_by_created_date (f : QueryFilters)
    (gte_created_date gt_id lte_created_date lt_id : Option Nat)
    (desc : Bool) (limit : Option Nat) (store : List Message) : List Message :=
  let rows := store.filter fun m =>
    rowMatches f m && lowerOk gte_created_date gt_id m && upperOk lte_created_date lt_id m
  let sorted := rows.insertionSort (ordRel desc)
  match limit with
  | none => sorted
  | some k => sorted.take k

/-- Error codes surfaced by the endpoints (`OasstErrorCode`; §7 taxonomy:
InvalidCursor, NotFound, TreeIntegrityError). -/
inductive ErrorCode where
  | invalidCursor
  | notFound
  | treeIntegrity
deriving DecidableEq, Repr

/-- The shape of a cursor string relative to the two parsers used by
`split_cursor` (the `utils.split_uuid_pattern` regex and ISO-8601 timestamp
parsing; both external to the provided sources, so strings are modelled by
their parse shape):
* `empty` — the empty string (falsy in the source's `if not x` test);
* `idTs id ts` — matches `"<id>$<timestamp>"` with a valid id and timestamp;
* `idBadTs id` — matches the `"<id>$..."` pattern but the timestamp part
  does not parse;
* `tsOnly ts` — a bare valid timestamp;
* `malformed` — matches neither accepted shape. -/
inductive CursorStr where
  | empty
  | idTs (id ts : Nat)
  | idBadTs (id : Nat)
  | tsOnly (ts : Nat)
  | malformed
deriving DecidableEq, Repr

/-- `split_cursor` of `get_messages_cursor` (`messages.py` lines 66–75):
`None` and the empty string yield no bounds; an `"<id>$<timestamp>"` match
yields `(timestamp, id)`; a bare timestamp yields `(timestamp, None)`; any
parse failure raises `INVALID_CURSOR_VALUE`. -/
def split_cursor : Option CursorStr → Except ErrorCode (Option Nat × Option Nat)
  | none => .ok (none, none)
  | some .empty => .ok (none, none)
  | some (.idTs i t) => .ok (some t, some i)
  | some (.idBadTs _) => .error .invalidCursor
  | some (.tsOnly t) => .ok (some t, none)
  | some .malformed => .error .invalidCursor

/-- A cursor token emitted in a page: either
`str(id) + "$" + created_date.isoformat()` or a bare
`timestamp.isoformat()`. -/
inductive CursorTok where
  | idTs (id ts : Nat)
  | tsOnly (ts : Nat)
deriving DecidableEq, Repr

/-- Reading an emitted token back as a cursor string: both emitted shapes
parse back to themselves. -/
def CursorTok.toStr : CursorTok → CursorStr
  | .idTs i t => .idTs i t
  | .tsOnly t => .tsOnly t

/-- `protocol.MessagePage`. -/
structure MessagePage where
  prev : Option CursorTok
  next : Option CursorTok
  sort_key : String
  order : String
  items : List Message
deriving DecidableEq, Repr

/-- The page construction of `get_messages_cursor` (`messages.py`
lines 96–110): with a non-empty result, `prev` is the first row's
`id$created_date` token when the page is full or a lower bound was given,
and `next` is the last row's token when the page is full or an upper bound
was given; with an empty result the bound timestamps are echoed as
timestamp-only tokens. -/
def build_page (max_count : Nat) (gte_created_date lte_created_date : Option Nat)
    (desc : Bool) (items : List Message) : MessagePage :=
  let p : Option CursorTok :=
    match items.head? with
    | some hd =>
      if items.length == max_count || gte_created_date.isSome then
        some (.idTs hd.id hd.created_date)
      else none
    | none => gte_created_date.map CursorTok.tsOnly
  let n : Option CursorTok :=
    match items.getLast? with
    | some lastRow =>
      if items.length == max_count || lte_created_date.isSome then
        some (.idTs lastRow.id lastRow.created_date)
      else none
    | none => lte_created_date.map CursorTok.tsOnly
  { prev := p, next := n, sort_key := "created_date",
    order := if desc then "desc" else "asc", items := items }

/-- The filter set built by `get_messages_cursor`:
all the optional equality filters, `only_roots`, and
`deleted = None if include_deleted else False`. -/
def cursorFilters (user_id auth_method username api_client_id : Option Nat)
    (only_roots include_deleted : Bool) : QueryFilters :=
  { user_id := user_id, auth_method := auth_method, username := username,
    api_client_id := api_client_id, only_roots := only_roots,
    deleted := if include_deleted then none else some false }

/-- `get_messages_cursor` (`messages.py` lines 51–110): parse the `lt` and
`gt` cursors (in that order), run the repository query with the parsed
bounds, the filters, `deleted = None if include_deleted else False` and the
limit `max_count`, then build the page.  `desc = none` models an omitted
query parameter, defaulted to `False`. -/
def get_messages_cursor (lt gt : Option CursorStr)
    (user_id auth_method username api_client_id : Option Nat)
    (only_roots include_deleted : Bool) (max_count : Nat) (desc : Option Bool)
    (store : List Message) : Except ErrorCode MessagePage :=
  match split_cursor lt with
  | .error e => .error e
  | .ok (lte_created_date, lt_id) =>
    match split_cursor gt with
    | .error e => .error e
    | .ok (gte_created_date, gt_id) =>
      let d := desc.getD false
      let items := query_messages_ordered_by_created_date
        (cursorFilters user_id auth_method username api_client_id
          only_roots include_deleted)
        gte_created_date gt_id lte_created_date lt_id d (some max_count) store
      .ok (build_page max_count gte_created_date lte_created_date d items)

/-- `query_messages` (`messages.py` lines 18–48): the plain list endpoint.
It has no cursor ids, uses `start_date`/`end_date` as the timestamp bounds,
`deleted = None if allow_deleted else False`, and `desc` defaults to
`True` when omitted. -/
def query_messages (auth_method username api_client_id : Option Nat)
    (max_count : Nat) (start_date end_date : Option Nat)
    (only_roots : Bool) (desc : Option Bool) (allow_deleted : Bool)
    (store : List Message) : List Message :=
  query_messages_ordered_by_created_date
    { user_id := none, auth_method := auth_method, username := username,
      api_client_id := api_client_id, only_roots := only_roots,
      deleted := if allow_deleted then none else some false }
    start_date none end_date none (desc.getD true) (some max_count) store

/-- Modelled from the spec: `PromptRepository.fetch_message` is not part of
the provided sources.  Per §4.1 (`fetch(id)`) and §7 (NotFound covers rows
"filtered out by visibility rules") it returns the row with the given id,
subject to the default `deleted = false` predicate, or fails with
NotFound. -/
def fetch_message (message_id : Nat) (store : List Message) :
    Except ErrorCode Message :=
  match store.find? (fun m => m.id == message_id && !m.deleted) with
  | some m => .ok m
  | none => .error .notFound

/-- Modelled from the spec: `PromptRepository.fetch_message_tree` is not part
of the provided sources.  Per §4.3 (`tree(message_tree_id, reviewed)`) it
returns all messages of the tree, restricted to `reviewed = true` rows when
the reviewed filter is enabled, under the default `deleted = false`
predicate of §4.1. -/
def fetch_message_tree (message_tree_id : Nat) (reviewed : Bool)
    (store : List Message) : List Message :=
  store.filter fun m =>
    m.message_tree_id == message_tree_id && (!reviewed || m.reviewed) && !m.deleted

/-- Modelled from the spec: `PromptRepository.fetch_message_children` is not
part of the provided sources.  Per §4.1 (`fetchChildren`) it returns the
messages whose `parent_id` is the given id, excluding deleted rows by
default. -/
def fetch_message_children (parent_id : Nat) (store : List Message) :
    List Message :=
  store.filter fun m => m.parent_id == some parent_id && !m.deleted

/-- `protocol.MessageTree`: a root id together with the tree's messages. -/
structure MessageTree where
  root_id : Nat
  messages : List Message
deriving DecidableEq, Repr

/-- `get_tree` (`messages.py` lines 138–148): fetch the addressed message,
then fetch the whole tree via its `message_tree_id` with the reviewed filter
passed unconditionally as `False`, and return it rooted at the
`message_tree_id`. -/
def get_tree (message_id : Nat) (store : List Message) :
    Except ErrorCode MessageTree :=
  match fetch_message message_id store with
  | .error e => .error e
  | .ok message =>
    .ok { root_id := message.message_tree_id,
          messages := fetch_message_tree message.message_tree_id false store }

/-- Modelled from the spec: the ancestor walk of
`PromptRepository.fetch_message_conversation` is not part of the provided
sources.  Per §4.2 (`ancestorPath`) it follows `parent_id` links upward to
the root and returns the sequence root→…→message; the walk is bounded
(TreeIntegrityError on a cyclic or unterminated chain, §7) and each lookup
goes through the default `deleted = false` visibility of §4.1, so a deleted
ancestor surfaces as NotFound rather than a partial result (§7: no partial
results). -/
def ancestor_chain : Nat → Message → List Message → Except ErrorCode (List Message)
  | 0, _, _ => .error .treeIntegrity
  | fuel + 1, m, store =>
    match m.parent_id with
    | none => .ok [m]
    | some pid =>
      match fetch_message pid store with
      | .error e => .error e
      | .ok p =>
        match ancestor_chain fuel p store with
        | .error e => .error e
        | .ok path => .ok (path ++ [m])

/-- Modelled from the spec: `PromptRepository.fetch_message_conversation`
(§4.2): resolve the addressed message, then build its ancestor path. -/
def fetch_message_conversation (message_id : Nat) (store : List Message) :
    Except ErrorCode (List Message) :=
  match fetch_message message_id store with
  | .error e => .error e
  | .ok m => ancestor_chain (store.length + 1) m store

/-- `get_conv` (`messages.py` lines 125–135): the conversation endpoint
returns the repository's root→message path. -/
def get_conv (message_id : Nat) (store : List Message) :
    Except ErrorCode (List Message) :=
  fetch_message_conversation message_id store

/-- One step of the in-memory adjacency closure of §4.3: add the ids of rows
whose parent is already collected. -/
def expandIds (rows : List Message) (ids : List Nat) : List Nat :=
  ids ++ (rows.filter fun x =>
    (match x.parent_id with
     | some p => ids.contains p
     | none => false) && !(ids.contains x.id)).map (fun x => x.id)

/-- Iterated adjacency closure. -/
def descendantIds : Nat → List Message → List Nat → List Nat
  | 0, _, ids => ids
  | n + 1, rows, ids => descendantIds n rows (expandIds rows ids)

/-- The rows of `rows` reachable from `m` through parent links. -/
def descendantsOf (rows : List Message) (m : Message) : List Message :=
  rows.filter fun x => (descendantIds rows.length rows [m.id]).contains x.id

/-- Modelled from the spec: `PromptRepository.fetch_message_descendants` is
not part of the provided sources.  Per §4.3 (`descendants`) it bulk-loads
the tree's rows (under the default `deleted = false` predicate of §4.1) and
collects the node plus its full subtree by in-memory adjacency grouping. -/
def fetch_message_descendants (m : Message) (store : List Message) :
    List Message :=
  descendantsOf
    (store.filter fun x => x.message_tree_id == m.message_tree_id && !x.deleted)
    m

/-- `get_descendants` (`messages.py` lines 163–173): fetch the addressed
message and return its subtree rooted at its own id. -/
def get_descendants (message_id : Nat) (store : List Message) :
    Except ErrorCode MessageTree :=
  match fetch_message message_id store with
  | .error e => .error e
  | .ok m => .ok { root_id := m.id, messages := fetch_message_descendants m store }

/-- The leaves of a loaded tree: rows with no (non-deleted) children among
the loaded rows. -/
def leavesOf (rows : List Message) : List Message :=
  rows.filter fun x => !(rows.any fun c => c.parent_id == some x.id)

/-- §4.2's selection between two candidate conversations: prefer the longer
path, breaking ties by the earlier `created_date` of the leaf. -/
def betterConv (a b : List Message × Message) : List Message × Message :=
  if a.1.length < b.1.length
      ∨ (a.1.length = b.1.length ∧ b.2.created_date < a.2.created_date)
    then b else a

/-- Modelled from the spec: `PromptRepository.fetch_longest_conversation` is
not part of the provided sources.  Per §4.2 (`longestConversation`) it
considers the tree's leaves (no non-deleted children, rows loaded under the
default `deleted = false` predicate), builds each leaf's ancestor path, and
selects the longest one, ties broken by the earliest leaf `created_date`. -/
def fetch_longest_conversation (tree_id : Nat) (store : List Message) :
    List Message :=
  match (leavesOf (store.filter fun x =>
      x.message_tree_id == tree_id && !x.deleted)).filterMap
      (fun leaf => match ancestor_chain (store.length + 1) leaf store with
        | .ok path => some (path, leaf)
        | .error _ => none) with
  | [] => []
  | c :: cs => (cs.foldl betterConv c).1

/-- `get_longest_conv` (`messages.py` lines 176–186): resolve the message,
then fetch the longest conversation of its tree. -/
def get_longest_conv (message_id : Nat) (store : List Message) :
    Except ErrorCode (List Message) :=
  match fetch_message message_id store with
  | .error e => .error e
  | .ok m => .ok (fetch_longest_conversation m.message_tree_id store)

/-- The number of (loaded, hence non-deleted) children of `p`. -/
def childCount (rows : List Message) (p : Message) : Nat :=
  (rows.filter fun c => c.parent_id == some p.id).length

/-- §4.4's selection between two candidate parents: prefer the larger
non-deleted child count, breaking ties by the earlier `created_date` of the
parent. -/
def betterParent (rows : List Message) (a b : Message) : Message :=
  if childCount rows a < childCount rows b
      ∨ (childCount rows a = childCount rows b ∧ b.created_date < a.created_date)
    then b else a

/-- Modelled from the spec: `PromptRepository.fetch_message_with_max_children`
is not part of the provided sources.  Per §4.4 (`nodeWithMostChildren`) it
loads the tree's rows (default `deleted = false` predicate), selects the
parent with the most non-deleted children (ties by earliest `created_date`),
and returns it with its immediate children. -/
def fetch_message_with_max_children (tree_id : Nat) (store : List Message) :
    Except ErrorCode (Message × List Message) :=
  match store.filter fun x => x.message_tree_id == tree_id && !x.deleted with
  | [] => .error .notFound
  | p :: ps =>
    .ok (ps.foldl (betterParent
        (store.filter fun x => x.message_tree_id == tree_id && !x.deleted)) p,
      (store.filter fun x =>
        x.message_tree_id == tree_id && !x.deleted).filter fun c =>
          c.parent_id == some (ps.foldl (betterParent
            (store.filter fun x =>
              x.message_tree_id == tree_id && !x.deleted)) p).id)

/-- `get_max_children` (`messages.py` lines 189–199): resolve the message,
fetch the most-replied node of its tree, and return it with its children,
rooted at that node. -/
def get_max_children (message_id : Nat) (store : List Message) :
    Except ErrorCode MessageTree :=
  match fetch_message message_id store with
  | .error e => .error e
  | .ok m =>
    match fetch_message_with_max_children m.message_tree_id store with
    | .error e => .error e
    | .ok (msg, children) => .ok { root_id := msg.id, messages := msg :: children }

/-- Modelled from the spec: `PromptRepository.mark_messages_deleted` is not
part of the provided sources.  Per §6 (`deleteMessage`) it soft-deletes the
addressed message by setting its `deleted` flag, with no payload and no
error on an already-deleted message. -/
def mark_messages_deleted (message_id : Nat) (store : List Message) :
    List Message :=
  store.map fun m => if m.id == message_id then { m with deleted := true } else m

/-- `mark_message_deleted` (`messages.py` lines 202–207): the delete endpoint
applies the repository soft-delete to the store. -/
def mark_message_deleted (message_id : Nat) (store : List Message) :
    List Message :=
  mark_messages_deleted message_id store

/-- The timestamp component a cursor token parses back to. -/
def tokTs : Option CursorTok → Option Nat
  | none => none
  | some (.idTs _ t) => some t
  | some (.tsOnly t) => some t

/-- The id component a cursor token parses back to. -/
def tokId : Option CursorTok → Option Nat
  | none => none
  | some (.idTs i _) => some i
  | some (.tsOnly _) => none

/-- The row predicate a continuation token induces on the query: the token
is passed as the `gt` bound when ascending and as the `lt` bound when
descending. -/
def afterTok (desc : Bool) (tok : Option CursorTok) (m : Message) : Bool :=
  match tok with
  | none => true
  | some c =>
    if desc then upperOk (tokTs (some c)) (tokId (some c)) m
    else lowerOk (tokTs (some c)) (tokId (some c)) m

/-- The unpaginated query: same filters and order, no cursor bounds and no
limit. -/
def unboundedQuery (user_id auth_method username api_client_id : Option Nat)
    (only_roots include_deleted : Bool) (desc : Bool) (store : List Message) :
    List Message :=
  query_messages_ordered_by_created_date
    (cursorFilters user_id auth_method username api_client_id
      only_roots include_deleted)
    none none none none desc none store

/-- A complete forward scan of the cursor pagination: call
`get_messages_cursor` with the continuation token (passed as `gt` when
ascending and as `lt` when descending, matching the sort direction), stop on
an empty page or a missing `next` token, and otherwise follow `next`.
`fuel` bounds the number of calls. -/
def followNext (fuel : Nat)
    (user_id auth_method username api_client_id : Option Nat)
    (only_roots include_deleted : Bool) (max_count : Nat) (desc : Bool)
    (store : List Message) (tok : Option CursorTok) : List Message :=
  match fuel with
  | 0 => []
  | fuel + 1 =>
    match get_messages_cursor
        (if desc then tok.map CursorTok.toStr else none)
        (if desc then none else tok.map CursorTok.toStr)
        user_id auth_method username api_client_id only_roots include_deleted
        max_count (some desc) store with
    | .error _ => []
    | .ok page =>
      if page.items.isEmpty then []
      else
        match page.next with
        | none => page.items
        | some t =>
          page.items ++ followNext fuel user_id auth_method username
            api_client_id only_roots include_deleted max_count desc store (some t)

/-- A demo row used by concrete instances: id `i`, `created_date` `t`,
not deleted, a root. -/
def demoMsg (i t : Nat) : Message :=
  { id := i, parent_id := none, message_tree_id := 1, created_date := t,
    deleted := false, reviewed := true, user_id := none, auth_method := none,
    username := none, api_client_id := none }

/-- A demo store of five rows with strictly increasing `created_date`. -/
def demoStore : List Message :=
  [demoMsg 1 10, demoMsg 2 20, demoMsg 3 30, demoMsg 4 40, demoMsg 5 50]

/-- The page the cursor endpoint returns on `demoStore` with `max_count = 2`,
ascending, no bounds. -/
def demoPage1 : MessagePage :=
  { prev := some (.idTs 1 10), next := some (.idTs 2 20),
    sort_key := "created_date", order := "asc",
    items := [demoMsg 1 10, demoMsg 2 20] }

/-- A demo reply: child of row 1, same tree, unreviewed, not deleted. -/
def demoChild : Message :=
  { id := 6, parent_id := some 1, message_tree_id := 1, created_date := 60,
    deleted := false, reviewed := false, user_id := none, auth_method := none,
    username := none, api_client_id := none }

/-- The demo store extended with the reply. -/
def demoStore2 : List Message := demoStore ++ [demoChild]

/-- The tree fetched from `demoStore2` for tree id 1. -/
def demoTree : MessageTree :=
  { root_id := 1,
    messages := [demoMsg 1 10, demoMsg 2 20, demoMsg 3 30, demoMsg 4 40,
      demoMsg 5 50, demoChild] }

/-- The root-and-reply tree returned by the descendants and max-children
endpoints on `demoStore2`. -/
def demoTree2 : MessageTree :=
  { root_id := 1, messages := [demoMsg 1 10, demoChild] }

/-! ## Basic facts about the composite order -/

theorem ascLT_asymm {a b : Message} (h1 : ascLT a b) (h2 : ascLT b a) : False := by
  unfold ascLT at h1 h2
  omega

theorem ordLT_asymm {d : Bool} {a b : Message} (h1 : ordLT d a b)
    (h2 : ordLT d b a) : False := by
  cases d <;> simp only [ordLT, if_true, if_false, Bool.false_eq_true] at h1 h2 <;>
    exact ascLT_asymm h1 h2

theorem ordLT_of_ordRel_of_ne {d : Bool} {a b : Message} (h : ordRel d a b)
    (hne : a.id ≠ b.id) : ordLT d a b := by
  cases d <;>
    simp only [ordRel, ordLT, if_true, if_false, Bool.false_eq_true] at h ⊢ <;>
    · unfold ascLE at h
      unfold ascLT
      omega

/-- A sorted list of rows with pairwise distinct ids is strictly sorted. -/
theorem pairwise_ordLT_of_sorted {d : Bool} {l : List Message}
    (hs : List.Sorted (ordRel d) l)
    (hne : l.Pairwise (fun a b => a.id ≠ b.id)) : l.Pairwise (ordLT d) :=
  (List.Pairwise.and hs hne).imp fun h => ordLT_of_ordRel_of_ne h.1 h.2

/-- Two permuted lists that are both pairwise in an asymmetric relation are
equal. -/
theorem perm_eq_of_pairwise {α : Type} {s : α → α → Prop}
    (hasym : ∀ a b, s a b → s b a → False) :
    ∀ {l₁ l₂ : List α}, l₁.Perm l₂ → l₁.Pairwise s → l₂.Pairwise s → l₁ = l₂ := by
  intro l₁
  induction l₁ with
  | nil =>
    intro l₂ hp _ _
    exact hp.nil_eq
  | cons a t ih =>
    intro l₂ hp h₁ h₂
    cases l₂ with
    | nil => exact absurd hp.symm.nil_eq (by simp)
    | cons b t₂ =>
      by_cases hab : a = b
      · subst hab
        rw [ih hp.cons_inv h₁.of_cons h₂.of_cons]
      · have hb : b ∈ t := by
          have : b ∈ a :: t := hp.symm.subset (List.mem_cons_self b t₂)
          rcases List.mem_cons.mp this with h | h
          · exact absurd h.symm hab
          · exact h
        have ha : a ∈ t₂ := by
          have : a ∈ b :: t₂ := hp.subset (List.mem_cons_self a t)
          rcases List.mem_cons.mp this with h | h
          · exact absurd h hab
          · exact h
        exact absurd (List.rel_of_pairwise_cons h₂ ha)
          fun h => hasym a b (List.rel_of_pairwise_cons h₁ hb) h

/-- Sorting commutes with filtering on a list of rows with distinct ids. -/
theorem insertionSort_filter_comm (p : Message → Bool) (d : Bool)
    (l : List Message) (hne : l.Pairwise (fun a b => a.id ≠ b.id)) :
    (l.filter p).insertionSort (ordRel d)
      = (l.insertionSort (ordRel d)).filter p := by
  have hperm : ((l.filter p).insertionSort (ordRel d)).Perm
      ((l.insertionSort (ordRel d)).filter p) :=
    (List.perm_insertionSort (ordRel d) (l.filter p)).trans
      ((List.perm_insertionSort (ordRel d) l).symm.filter p)
  have hsymm : ∀ x y : Message, x.id ≠ y.id → y.id ≠ x.id := fun _ _ h => h.symm
  have hne₁ : ((l.filter p).insertionSort (ordRel d)).Pairwise
      (fun a b => a.id ≠ b.id) :=
    ((List.perm_insertionSort (ordRel d) (l.filter p)).pairwise_iff
      fun h => hsymm _ _ h).mpr (hne.filter p)
  have hne₂ : ((l.insertionSort (ordRel d)).filter p).Pairwise
      (fun a b => a.id ≠ b.id) :=
    (((List.perm_insertionSort (ordRel d) l).pairwise_iff
      fun h => hsymm _ _ h).mpr hne).filter p
  exact perm_eq_of_pairwise (fun a b h1 h2 => ordLT_asymm h1 h2) hperm
    (pairwise_ordLT_of_sorted (List.sorted_insertionSort (ordRel d) (l.filter p)) hne₁)
    (pairwise_ordLT_of_sorted
      ((List.sorted_insertionSort (ordRel d) l).filter p) hne₂)

/-! ## Claim theorems: defaults, cursor parsing, soft delete -/

/-- C10: when the caller omits the sort direction, `query_messages`
(listMessages) defaults to descending order (`desc = True`, newest first)
while `get_messages_cursor` (listMessagesPage) defaults to ascending order
(`desc = False`, oldest first); on a two-row store the default list endpoint
returns newest first and the default cursor endpoint oldest first with
`order = "asc"`. -/
theorem default_sort_directions (am un ac uid : Option Nat) (mc : Nat)
    (sd ed : Option Nat) (orf ad incDel : Bool) (lt gt : Option CursorStr)
    (store : List Message) :
    query_messages am un ac mc sd ed orf none ad store
        = query_messages am un ac mc sd ed orf (some true) ad store
    ∧ get_messages_cursor lt gt uid am un ac orf incDel mc none store
        = get_messages_cursor lt gt uid am un ac orf incDel mc (some false) store
    ∧ query_messages none none none 10 none none false none false demoStore
        = [demoMsg 5 50, demoMsg 4 40, demoMsg 3 30, demoMsg 2 20, demoMsg 1 10]
    ∧ (get_messages_cursor none none none none none none false false 10 none
          demoStore).map (fun page => (page.order, page.items))
        = .ok ("asc", [demoMsg 1 10, demoMsg 2 20, demoMsg 3 30, demoMsg 4 40,
            demoMsg 5 50]) := by
  refine ⟨rfl, rfl, by decide, by rfl⟩

/-- C8: an empty string passed as the `lt` or `gt` cursor is treated exactly
like omitting the bound: `split_cursor` yields no timestamp and no id, no
InvalidCursor error is raised, and the call coincides with the boundless
call. -/
theorem empty_cursor_like_absent (uid am un ac : Option Nat)
    (orf incDel : Bool) (mc : Nat) (d : Option Bool) (lt gt : Option CursorStr)
    (store : List Message) :
    split_cursor (some .empty) = .ok (none, none)
    ∧ split_cursor none = .ok (none, none)
    ∧ get_messages_cursor (some .empty) gt uid am un ac orf incDel mc d store
        = get_messages_cursor none gt uid am un ac orf incDel mc d store
    ∧ get_messages_cursor lt (some .empty) uid am un ac orf incDel mc d store
        = get_messages_cursor lt none uid am un ac orf incDel mc d store := by
  refine ⟨rfl, rfl, rfl, ?_⟩
  cases lt with
  | none => rfl
  | some c => cases c <;> rfl

/-- C5: a cursor string matching neither the `id$timestamp` shape nor the
bare-timestamp shape (including an `id$...` match whose timestamp does not
parse), passed as `lt` or as `gt`, fails the call with InvalidCursor; it
never proceeds as an unbounded query and never returns a page. -/
theorem malformed_cursor_rejected (uid am un ac : Option Nat)
    (orf incDel : Bool) (mc : Nat) (d : Option Bool) (gt : Option CursorStr)
    (store : List Message) :
    get_messages_cursor (some .malformed) gt uid am un ac orf incDel mc d store
        = .error .invalidCursor
    ∧ (∀ i, get_messages_cursor (some (.idBadTs i)) gt uid am un ac orf incDel
          mc d store = .error .invalidCursor)
    ∧ get_messages_cursor none (some .malformed) uid am un ac orf incDel mc d
          store = .error .invalidCursor
    ∧ (∀ i, get_messages_cursor none (some (.idBadTs i)) uid am un ac orf
          incDel mc d store = .error .invalidCursor) :=
  ⟨rfl, fun _ => rfl, rfl, fun _ => rfl⟩

/-- C7: the soft delete is idempotent: deleting twice produces the same
store as deleting once, and deleting a message that is already marked
deleted leaves the store unchanged (and raises no error — the operation is
total). -/
theorem mark_message_deleted_idempotent (message_id : Nat)
    (store : List Message) :
    mark_message_deleted message_id (mark_message_deleted message_id store)
        = mark_message_deleted message_id store
    ∧ ((∀ m ∈ store, m.id = message_id → m.deleted = true) →
        mark_message_deleted message_id store = store) := by
  constructor
  · unfold mark_message_deleted mark_messages_deleted
    rw [List.map_map]
    apply List.map_congr_left
    intro m _
    by_cases h : m.id = message_id
    · simp [h]
    · simp [h]
  · intro hdel
    unfold mark_message_deleted mark_messages_deleted
    conv_rhs => rw [← List.map_id store]
    apply List.map_congr_left
    intro m hm
    by_cases h : m.id = message_id
    · have hd := hdel m hm h
      have hb : (m.id == message_id) = true := beq_iff_eq.mpr h
      simp only [hb, if_true, id_eq]
      rw [← hd]
    · simp [h]

/-- C7 witness: deleting row 1 of the demo store twice equals deleting it
once (the second delete hits an already-deleted row and is a no-op). -/
theorem mark_message_deleted_idempotent_witness :
    mark_message_deleted 1 (mark_message_deleted 1 demoStore)
      = mark_message_deleted 1 demoStore :=
  (mark_message_deleted_idempotent 1 (mark_message_deleted 1 demoStore)).2
    (by decide)

/-! ## Claim theorems: bounds, deletion filtering, tree fetch -/

@[simp] theorem build_page_items (k : Nat) (g l : Option Nat) (d : Bool)
    (items : List Message) : (build_page k g l d items).items = items := rfl

/-- A filter set whose `deleted` component is `some false` only matches
non-deleted rows. -/
theorem deleted_of_rowMatches {f : QueryFilters} {m : Message}
    (hf : f.deleted = some false) (h : rowMatches f m = true) :
    m.deleted = false := by
  unfold rowMatches at h
  rw [hf] at h
  simp only [Bool.and_eq_true, beq_iff_eq] at h
  exact h.2

/-- Any row returned by the repository query passes the row filters and both
cursor bounds. -/
theorem mem_query {f : QueryFilters} {gte gt_id lte lt_id : Option Nat}
    {d : Bool} {lim : Option Nat} {store : List Message} {m : Message}
    (h : m ∈ query_messages_ordered_by_created_date f gte gt_id lte lt_id d
      lim store) :
    rowMatches f m = true ∧ lowerOk gte gt_id m = true
      ∧ upperOk lte lt_id m = true := by
  unfold query_messages_ordered_by_created_date at h
  have hmem : m ∈ (store.filter fun x =>
      rowMatches f x && lowerOk gte gt_id x && upperOk lte lt_id x).insertionSort
        (ordRel d) := by
    cases lim with
    | none => exact h
    | some k => exact List.mem_of_mem_take h
  rw [List.mem_insertionSort] at hmem
  have hp := (List.mem_filter.mp hmem).2
  simp only [Bool.and_eq_true] at hp
  exact ⟨hp.1.1, hp.1.2, hp.2⟩

/-- C4: under a composite lower cursor bound (timestamp `t` plus id `i`) a
returned row has `created_date > t`, or `created_date = t` and `id > i`
(mirrored strictly for the upper bound); in particular the boundary row
itself is never returned again on either side. -/
theorem cursor_bounds_strict (f : QueryFilters) (t i : Nat)
    (gte gt_id lte lt_id : Option Nat) (d : Bool) (lim : Option Nat)
    (store : List Message) (m : Message) :
    (m ∈ query_messages_ordered_by_created_date f (some t) (some i) lte lt_id
        d lim store →
      (t < m.created_date ∨ (t = m.created_date ∧ i < m.id))
        ∧ ¬(m.created_date = t ∧ m.id = i))
    ∧ (m ∈ query_messages_ordered_by_created_date f gte gt_id (some t) (some i)
        d lim store →
      (m.created_date < t ∨ (m.created_date = t ∧ m.id < i))
        ∧ ¬(m.created_date = t ∧ m.id = i)) := by
  constructor
  · intro h
    have hlow := (mem_query h).2.1
    simp only [lowerOk, decide_eq_true_eq] at hlow
    exact ⟨hlow, by omega⟩
  · intro h
    have hup := (mem_query h).2.2
    simp only [upperOk, decide_eq_true_eq] at hup
    exact ⟨hup, by omega⟩

/-- C4 witness: on the demo store, a lower bound at the cursor of row 2
yields rows strictly beyond `(20, 2)`, and the boundary row itself is not
returned. -/
theorem cursor_bounds_strict_witness :
    (20 < (demoMsg 3 30).created_date
        ∨ (20 = (demoMsg 3 30).created_date ∧ 2 < (demoMsg 3 30).id))
      ∧ ¬((demoMsg 3 30).created_date = 20 ∧ (demoMsg 3 30).id = 2) :=
  (cursor_bounds_strict (cursorFilters none none none none false false) 20 2
    none none none none false (some 10) demoStore (demoMsg 3 30)).1 (by decide)

/-- Fetching a message by id only ever returns a non-deleted row. -/
theorem fetch_message_ok_not_deleted {mid : Nat} {store : List Message}
    {m : Message} (h : fetch_message mid store = .ok m) : m.deleted = false := by
  unfold fetch_message at h
  cases hf : store.find? (fun x => x.id == mid && !x.deleted) with
  | none => rw [hf] at h; exact absurd h (by simp)
  | some x =>
    rw [hf] at h
    simp only [Except.ok.injEq] at h
    have hx := List.find?_some hf
    simp only [Bool.and_eq_true, Bool.not_eq_true'] at hx
    rw [← h]
    exact hx.2

/-- A member of the visibility-filtered tree load is non-deleted. -/
theorem mem_tree_filter_not_deleted {tid : Nat} {store : List Message}
    {m : Message}
    (h : m ∈ store.filter fun x => x.message_tree_id == tid && !x.deleted) :
    m.deleted = false := by
  have hp := (List.mem_filter.mp h).2
  simp only [Bool.and_eq_true, Bool.not_eq_true'] at hp
  exact hp.2

/-- Every row of a successfully built ancestor path is non-deleted: the
start is, and each parent is looked up through the default visibility. -/
theorem ancestor_chain_not_deleted :
    ∀ (fuel : Nat) (m : Message) (store : List Message) (path : List Message),
      m.deleted = false → ancestor_chain fuel m store = .ok path →
      ∀ x ∈ path, x.deleted = false := by
  intro fuel
  induction fuel with
  | zero =>
    intro m store path _ h
    exact absurd h (by simp [ancestor_chain])
  | succ fuel ih =>
    intro m store path hm h
    simp only [ancestor_chain] at h
    cases hp : m.parent_id with
    | none =>
      rw [hp] at h
      simp only [Except.ok.injEq] at h
      intro x hx
      rw [← h] at hx
      have hx2 : x = m := by simpa using hx
      rw [hx2]
      exact hm
    | some pid =>
      rw [hp] at h
      simp only [] at h
      cases hf : fetch_message pid store with
      | error e => rw [hf] at h; exact absurd h (by simp)
      | ok p =>
        rw [hf] at h
        simp only [] at h
        cases hc : ancestor_chain fuel p store with
        | error e => rw [hc] at h; exact absurd h (by simp)
        | ok tail =>
          rw [hc] at h
          simp only [Except.ok.injEq] at h
          intro x hx
          rw [← h] at hx
          rcases List.mem_append.mp hx with hx1 | hx1
          · exact ih p store tail (fetch_message_ok_not_deleted hf) hc x hx1
          · have hx2 : x = m := by simpa using hx1
            rw [hx2]
            exact hm

/-- A left fold by a function that always returns one of its two arguments
stays within the seed and the list. -/
theorem foldl_choice_mem {α : Type} (f : α → α → α)
    (hf : ∀ a b, f a b = a ∨ f a b = b) :
    ∀ (l : List α) (a : α), l.foldl f a ∈ a :: l := by
  intro l
  induction l with
  | nil =>
    intro a
    simp
  | cons b bs ih =>
    intro a
    simp only [List.foldl_cons]
    rcases List.mem_cons.mp (ih (f a b)) with h1 | h1
    · rw [h1]
      rcases hf a b with h0 | h0 <;> rw [h0] <;> simp
    · simp [h1]

theorem betterConv_choice (a b : List Message × Message) :
    betterConv a b = a ∨ betterConv a b = b := by
  unfold betterConv
  by_cases h : a.1.length < b.1.length
      ∨ (a.1.length = b.1.length ∧ b.2.created_date < a.2.created_date)
  · rw [if_pos h]
    exact Or.inr rfl
  · rw [if_neg h]
    exact Or.inl rfl

theorem betterParent_choice (rows : List Message) (a b : Message) :
    betterParent rows a b = a ∨ betterParent rows a b = b := by
  unfold betterParent
  by_cases h : childCount rows a < childCount rows b
      ∨ (childCount rows a = childCount rows b ∧ b.created_date < a.created_date)
  · rw [if_pos h]
    exact Or.inr rfl
  · rw [if_neg h]
    exact Or.inl rfl

/-- C6: with the deletion opt-in left off (`allow_deleted = False` for
`query_messages`, `include_deleted = False` for `get_messages_cursor`, and
the spec-modelled default `deleted = false` predicate of the repository
fetchers), every row returned by any read — the two list endpoints, the
tree, children and point fetches, and the conversation, descendants,
longest-conversation and max-children endpoints — has `deleted = false`. -/
theorem default_reads_exclude_deleted (am un ac uid : Option Nat) (mc : Nat)
    (sd ed : Option Nat) (orf : Bool) (d : Option Bool)
    (lt gt : Option CursorStr) (tid pid mid cid did lid xid : Nat) (rv : Bool)
    (store : List Message) (m : Message) (page : MessagePage)
    (found : Message) (conv longest : List Message)
    (dtree xtree : MessageTree) :
    (m ∈ query_messages am un ac mc sd ed orf d false store →
        m.deleted = false)
    ∧ (get_messages_cursor lt gt uid am un ac orf false mc d store = .ok page →
        m ∈ page.items → m.deleted = false)
    ∧ (m ∈ fetch_message_tree tid rv store → m.deleted = false)
    ∧ (m ∈ fetch_message_children pid store → m.deleted = false)
    ∧ (fetch_message mid store = .ok found → found.deleted = false)
    ∧ (get_conv cid store = .ok conv → m ∈ conv → m.deleted = false)
    ∧ (get_descendants did store = .ok dtree → m ∈ dtree.messages →
        m.deleted = false)
    ∧ (get_longest_conv lid store = .ok longest → m ∈ longest →
        m.deleted = false)
    ∧ (get_max_children xid store = .ok xtree → m ∈ xtree.messages →
        m.deleted = false) := by
  refine ⟨?_, ?_, ?_, ?_, ?_, ?_, ?_, ?_, ?_⟩
  · intro h
    exact deleted_of_rowMatches rfl (mem_query (by exact h)).1
  · intro hpage hm
    unfold get_messages_cursor at hpage
    cases hlt : split_cursor lt with
    | error e => rw [hlt] at hpage; exact absurd hpage (by simp)
    | ok b1 =>
      cases hgt : split_cursor gt with
      | error e => rw [hlt, hgt] at hpage; exact absurd hpage (by simp)
      | ok b2 =>
        rw [hlt, hgt] at hpage
        simp only [Except.ok.injEq] at hpage
        rw [← hpage, build_page_items] at hm
        exact deleted_of_rowMatches rfl (mem_query hm).1
  · intro h
    have hp := (List.mem_filter.mp h).2
    simp only [Bool.and_eq_true, Bool.not_eq_true'] at hp
    exact hp.2
  · intro h
    have hp := (List.mem_filter.mp h).2
    simp only [Bool.and_eq_true, Bool.not_eq_true'] at hp
    exact hp.2
  · intro h
    exact fetch_message_ok_not_deleted h
  · intro h hm
    unfold get_conv fetch_message_conversation at h
    cases hf : fetch_message cid store with
    | error e => rw [hf] at h; exact absurd h (by simp)
    | ok m0 =>
      rw [hf] at h
      exact ancestor_chain_not_deleted (store.length + 1) m0 store conv
        (fetch_message_ok_not_deleted hf) h m hm
  · intro h hm
    unfold get_descendants at h
    cases hf : fetch_message did store with
    | error e => rw [hf] at h; exact absurd h (by simp)
    | ok m0 =>
      rw [hf] at h
      simp only [Except.ok.injEq] at h
      rw [← h] at hm
      have hm2 : m ∈ fetch_message_descendants m0 store := hm
      unfold fetch_message_descendants descendantsOf at hm2
      exact mem_tree_filter_not_deleted (List.mem_filter.mp hm2).1
  · intro h hm
    unfold get_longest_conv at h
    cases hf : fetch_message lid store with
    | error e => rw [hf] at h; exact absurd h (by simp)
    | ok m0 =>
      rw [hf] at h
      simp only [Except.ok.injEq] at h
      rw [← h] at hm
      unfold fetch_longest_conversation at hm
      cases hcs : (leavesOf (store.filter fun x =>
          x.message_tree_id == m0.message_tree_id && !x.deleted)).filterMap
          (fun leaf => match ancestor_chain (store.length + 1) leaf store with
            | .ok path => some (path, leaf)
            | .error _ => none) with
      | nil =>
        rw [hcs] at hm
        simp at hm
      | cons c cs =>
        rw [hcs] at hm
        simp only [] at hm
        have hbest := foldl_choice_mem betterConv betterConv_choice cs c
        rw [← hcs] at hbest
        rw [List.mem_filterMap] at hbest
        obtain ⟨leaf, hleaf, hsome⟩ := hbest
        cases hch : ancestor_chain (store.length + 1) leaf store with
        | error e => rw [hch] at hsome; exact absurd hsome (by simp)
        | ok path =>
          rw [hch] at hsome
          simp only [Option.some.injEq] at hsome
          have hleaf2 : leaf.deleted = false := by
            unfold leavesOf at hleaf
            exact mem_tree_filter_not_deleted (List.mem_filter.mp hleaf).1
          apply ancestor_chain_not_deleted (store.length + 1) leaf store path
            hleaf2 hch
          rw [← hsome] at hm
          exact hm
  · intro h hm
    unfold get_max_children at h
    cases hf : fetch_message xid store with
    | error e => rw [hf] at h; exact absurd h (by simp)
    | ok m0 =>
      rw [hf] at h
      simp only [] at h
      cases hmc : fetch_message_with_max_children m0.message_tree_id store with
      | error e => rw [hmc] at h; exact absurd h (by simp)
      | ok best =>
        obtain ⟨msg, children⟩ := best
        rw [hmc] at h
        simp only [Except.ok.injEq] at h
        rw [← h] at hm
        have hm2 : m ∈ msg :: children := hm
        unfold fetch_message_with_max_children at hmc
        cases hrows : store.filter fun x =>
            x.message_tree_id == m0.message_tree_id && !x.deleted with
        | nil => rw [hrows] at hmc; exact absurd hmc (by simp)
        | cons p ps =>
          rw [hrows] at hmc
          simp only [Except.ok.injEq, Prod.mk.injEq] at hmc
          obtain ⟨hmsg, hch⟩ := hmc
          rcases List.mem_cons.mp hm2 with hmk | hmk
          · have hmem := foldl_choice_mem (betterParent (p :: ps))
              (betterParent_choice (p :: ps)) ps p
            rw [hmsg, ← hrows] at hmem
            rw [hmk]
            exact mem_tree_filter_not_deleted hmem
          · rw [← hch] at hmk
            have hmem := (List.mem_filter.mp hmk).1
            rw [← hrows] at hmem
            exact mem_tree_filter_not_deleted hmem

/-- C6 witness: concrete rows returned by each default read are
non-deleted. -/
theorem default_reads_exclude_deleted_witness :
    (demoMsg 1 10).deleted = false ∧ (demoMsg 2 20).deleted = false
      ∧ (demoMsg 3 30).deleted = false ∧ demoChild.deleted = false
      ∧ (demoMsg 1 10).deleted = false ∧ demoChild.deleted = false
      ∧ demoChild.deleted = false ∧ (demoMsg 1 10).deleted = false
      ∧ demoChild.deleted = false := by
  refine ⟨?_, ?_, ?_, ?_, ?_, ?_, ?_, ?_, ?_⟩
  · exact (default_reads_exclude_deleted none none none none 10 none none false
      (some false) none none 1 1 1 6 1 2 3 false demoStore (demoMsg 1 10)
      demoPage1 (demoMsg 1 10) [] [] demoTree2 demoTree2).1 (by decide)
  · exact (default_reads_exclude_deleted none none none none 2 none none false
      (some false) none none 1 1 1 6 1 2 3 false demoStore (demoMsg 2 20)
      demoPage1 (demoMsg 1 10) [] [] demoTree2 demoTree2).2.1 (by decide)
      (by decide)
  · exact (default_reads_exclude_deleted none none none none 10 none none false
      (some false) none none 1 1 1 6 1 2 3 false demoStore (demoMsg 3 30)
      demoPage1 (demoMsg 1 10) [] [] demoTree2 demoTree2).2.2.1 (by decide)
  · exact (default_reads_exclude_deleted none none none none 10 none none false
      (some false) none none 1 1 1 6 1 2 3 false demoStore2 demoChild
      demoPage1 (demoMsg 1 10) [] [] demoTree2 demoTree2).2.2.2.1 (by decide)
  · exact (default_reads_exclude_deleted none none none none 10 none none false
      (some false) none none 1 1 1 6 1 2 3 false demoStore (demoMsg 1 10)
      demoPage1 (demoMsg 1 10) [] [] demoTree2 demoTree2).2.2.2.2.1
      (by decide)
  · exact (default_reads_exclude_deleted none none none none 10 none none false
      (some false) none none 1 1 1 6 1 2 3 false demoStore2 demoChild
      demoPage1 (demoMsg 1 10) [demoMsg 1 10, demoChild] [] demoTree2
      demoTree2).2.2.2.2.2.1 (by decide) (by decide)
  · exact (default_reads_exclude_deleted none none none none 10 none none false
      (some false) none none 1 1 1 6 1 2 3 false demoStore2 demoChild
      demoPage1 (demoMsg 1 10) [] [] demoTree2 demoTree2).2.2.2.2.2.2.1
      (by decide) (by decide)
  · exact (default_reads_exclude_deleted none none none none 10 none none false
      (some false) none none 1 1 1 6 1 2 3 false demoStore2 (demoMsg 1 10)
      demoPage1 (demoMsg 1 10) [] [demoMsg 1 10, demoChild] demoTree2
      demoTree2).2.2.2.2.2.2.2.1 (by decide) (by decide)
  · exact (default_reads_exclude_deleted none none none none 10 none none false
      (some false) none none 1 1 1 6 1 2 3 false demoStore2 demoChild
      demoPage1 (demoMsg 1 10) [] [] demoTree2
      demoTree2).2.2.2.2.2.2.2.2 (by decide) (by decide)

/-- When ids are unique, fetching a non-deleted member by its id returns
exactly that member. -/
theorem fetch_message_found {store : List Message} {m : Message}
    (hinj : ∀ x ∈ store, ∀ y ∈ store, x.id = y.id → x = y)
    (hm : m ∈ store) (hdel : m.deleted = false) :
    fetch_message m.id store = .ok m := by
  unfold fetch_message
  cases hf : store.find? (fun x => x.id == m.id && !x.deleted) with
  | none =>
    rw [List.find?_eq_none] at hf
    exact absurd (by simp [hdel]) (hf m hm)
  | some x =>
    have hx := List.find?_some hf
    have hxm : x ∈ store := List.mem_of_find?_eq_some hf
    simp only [Bool.and_eq_true, beq_iff_eq] at hx
    rw [hinj x hxm m hm hx.1]

/-- C9: `get_tree` passes `reviewed = False` unconditionally, so the fetched
tree contains every non-deleted row of the tree regardless of its `reviewed`
flag; and the addressed message may be any message of the tree — the tree is
resolved through `message_tree_id`, so two members of one tree yield the
same result. -/
theorem get_tree_unfiltered_reviewed (store : List Message) (mid : Nat)
    (tree : MessageTree) (x m1 m2 : Message)
    (hinj : ∀ a ∈ store, ∀ b ∈ store, a.id = b.id → a = b) :
    (get_tree mid store = .ok tree →
      x ∈ store → x.message_tree_id = tree.root_id → x.deleted = false →
        x ∈ tree.messages)
    ∧ (m1 ∈ store → m2 ∈ store → m1.deleted = false → m2.deleted = false →
        m1.message_tree_id = m2.message_tree_id →
        get_tree m1.id store = get_tree m2.id store) := by
  constructor
  · intro htree hx hxt hxd
    unfold get_tree at htree
    cases hf : fetch_message mid store with
    | error e => rw [hf] at htree; exact absurd htree (by simp)
    | ok msg =>
      rw [hf] at htree
      simp only [Except.ok.injEq] at htree
      rw [← htree] at hxt ⊢
      unfold fetch_message_tree
      exact List.mem_filter.mpr ⟨hx, by simp [hxt, hxd]⟩
  · intro h1 h2 hd1 hd2 htid
    unfold get_tree
    rw [fetch_message_found hinj h1 hd1, fetch_message_found hinj h2 hd2]
    simp [htid]

/-- C9 witness: the unreviewed reply is in the fetched tree, and fetching
the tree through the root or through the reply gives the same result. -/
theorem get_tree_unfiltered_reviewed_witness :
    demoChild ∈ demoTree.messages
      ∧ get_tree (demoMsg 1 10).id demoStore2 = get_tree demoChild.id demoStore2 := by
  constructor
  · exact (get_tree_unfiltered_reviewed demoStore2 1 demoTree demoChild
      (demoMsg 1 10) demoChild (by decide)).1 (by decide) (by decide)
      (by decide) (by decide)
  · exact (get_tree_unfiltered_reviewed demoStore2 1 demoTree demoChild
      (demoMsg 1 10) demoChild (by decide)).2 (by decide) (by decide)
      (by decide) (by decide) (by decide)

/-! ## Claim theorems: page token construction -/

/-- C3: for a successful cursor call, when rows are returned the `prev`
token is present exactly when the row count equals the limit or a lower
(`gte`) bound was parsed, and then encodes the first row's id and
`created_date` as an `id$timestamp` token; `next` follows the same rule
with the last row and the upper (`lte`) bound.  With zero rows, `prev` and
`next` echo the parsed bound timestamps as timestamp-only tokens and are
absent when the corresponding bound is absent. -/
theorem page_token_rule (lt gt : Option CursorStr) (uid am un ac : Option Nat)
    (orf incDel : Bool) (k : Nat) (d : Option Bool) (store : List Message)
    (page : MessagePage) (lte lt_id gte gt_id : Option Nat)
    (hlt : split_cursor lt = .ok (lte, lt_id))
    (hgt : split_cursor gt = .ok (gte, gt_id))
    (hpage : get_messages_cursor lt gt uid am un ac orf incDel k d store
      = .ok page) :
    (∀ hd tl, page.items = hd :: tl →
        (page.prev = if page.items.length == k || gte.isSome
            then some (.idTs hd.id hd.created_date) else none)
      ∧ (page.next = if page.items.length == k || lte.isSome
            then page.items.getLast?.map
              (fun lastRow => CursorTok.idTs lastRow.id lastRow.created_date)
            else none))
    ∧ (page.items = [] →
        page.prev = gte.map CursorTok.tsOnly
          ∧ page.next = lte.map CursorTok.tsOnly) := by
  unfold get_messages_cursor at hpage
  rw [hlt, hgt] at hpage
  simp only [Except.ok.injEq] at hpage
  rw [← hpage]
  generalize query_messages_ordered_by_created_date
    (cursorFilters uid am un ac orf incDel) gte gt_id lte lt_id
    (d.getD false) (some k) store = xs
  constructor
  · intro hd tl hxs
    rw [build_page_items] at hxs
    subst hxs
    cases hgl : (hd :: tl).getLast? with
    | none => exact absurd hgl (by simp)
    | some lastRow =>
      unfold build_page
      simp only [List.head?_cons, hgl, build_page_items]
      exact ⟨trivial, by simp⟩
  · intro hxs
    rw [build_page_items] at hxs
    subst hxs
    unfold build_page
    simp only [List.head?_nil, List.getLast?_nil]
    exact ⟨trivial, trivial⟩

/-- C3 witness: the first demo page is full, so both tokens are present and
encode the first and last returned rows. -/
theorem page_token_rule_witness :
    demoPage1.prev = some (CursorTok.idTs 1 10)
      ∧ demoPage1.next = some (CursorTok.idTs 2 20) := by
  have h := (page_token_rule none none none none none none false false 2
      (some false) demoStore demoPage1 none none none none rfl rfl
      (by decide)).1 (demoMsg 1 10) [demoMsg 2 20] (by decide)
  exact ⟨h.1.trans (by decide), h.2.trans (by decide)⟩

/-! ## Claim theorems: the two-page example -/

/-- C2 counterexample: on five rows with strictly increasing `created_date`,
the first call (limit 2, ascending, no bounds) does return rows 1–2 with
`next` the cursor of row 2 — but `prev` is the cursor of row 1, not absent,
because the page is full. -/
theorem first_page_prev_present :
    get_messages_cursor none none none none none none false false 2
        (some false) demoStore = .ok demoPage1
    ∧ demoPage1.prev = some (CursorTok.idTs 1 10)
    ∧ ¬(get_messages_cursor none none none none none none false false 2
        (some false) demoStore = .ok { demoPage1 with prev := none }) :=
  ⟨by decide, rfl, by decide⟩

/-- C2 (amended): over five messages with strictly increasing
`created_date`, the first call with limit 2, ascending and no bounds returns
rows 1–2 with `next` the cursor of row 2 and `prev` the cursor of row 1
(the page is full, so both tokens are set); the follow-up call with `gt` set
to row 2's cursor returns rows 3–4. -/
theorem page_example_five (m1 m2 m3 m4 m5 : Message)
    (h12 : m1.created_date < m2.created_date)
    (h23 : m2.created_date < m3.created_date)
    (h34 : m3.created_date < m4.created_date)
    (h45 : m4.created_date < m5.created_date)
    (hd1 : m1.deleted = false) (hd2 : m2.deleted = false)
    (hd3 : m3.deleted = false) (hd4 : m4.deleted = false)
    (hd5 : m5.deleted = false) :
    get_messages_cursor none none none none none none false false 2
        (some false) [m1, m2, m3, m4, m5]
      = .ok { prev := some (.idTs m1.id m1.created_date),
              next := some (.idTs m2.id m2.created_date),
              sort_key := "created_date", order := "asc", items := [m1, m2] }
    ∧ get_messages_cursor none (some (.idTs m2.id m2.created_date)) none none
        none none false false 2 (some false) [m1, m2, m3, m4, m5]
      = .ok { prev := some (.idTs m3.id m3.created_date),
              next := some (.idTs m4.id m4.created_date),
              sort_key := "created_date", order := "asc", items := [m3, m4] } := by
  have hrow : ∀ m : Message, m.deleted = false →
      rowMatches (cursorFilters none none none none false false) m = true := by
    intro m h
    simp [rowMatches, cursorFilters, matchOpt, h]
  constructor
  · have h1 : get_messages_cursor none none none none none none false false 2
        (some false) [m1, m2, m3, m4, m5]
        = .ok (build_page 2 none none false
            (query_messages_ordered_by_created_date
              (cursorFilters none none none none false false)
              none none none none false (some 2) [m1, m2, m3, m4, m5])) := rfl
    have hq : query_messages_ordered_by_created_date
        (cursorFilters none none none none false false)
        none none none none false (some 2) [m1, m2, m3, m4, m5] = [m1, m2] := by
      unfold query_messages_ordered_by_created_date
      have hfil : List.filter (fun m =>
          rowMatches (cursorFilters none none none none false false) m
            && lowerOk none none m && upperOk none none m)
          [m1, m2, m3, m4, m5] = [m1, m2, m3, m4, m5] := by
        apply List.filter_eq_self.mpr
        intro a ha
        simp only [List.mem_cons, List.not_mem_nil, or_false] at ha
        rcases ha with rfl | rfl | rfl | rfl | rfl <;>
          simp [lowerOk, upperOk, hrow, hd1, hd2, hd3, hd4, hd5]
      have hs : List.Sorted (ordRel false) [m1, m2, m3, m4, m5] := by
        simp only [List.sorted_cons, List.mem_cons, List.not_mem_nil, or_false,
          forall_eq_or_imp, forall_eq, false_implies, forall_const,
          implies_true, and_true, List.sorted_nil, ordRel, if_false,
          Bool.false_eq_true, ascLE]
        omega
      simp only [hfil]
      rw [List.Sorted.insertionSort_eq hs]
      rfl
    rw [h1, hq]
    rfl
  · have h2 : get_messages_cursor none (some (.idTs m2.id m2.created_date))
        none none none none false false 2 (some false) [m1, m2, m3, m4, m5]
        = .ok (build_page 2 (some m2.created_date) none false
            (query_messages_ordered_by_created_date
              (cursorFilters none none none none false false)
              (some m2.created_date) (some m2.id) none none false (some 2)
              [m1, m2, m3, m4, m5])) := rfl
    have hq : query_messages_ordered_by_created_date
        (cursorFilters none none none none false false)
        (some m2.created_date) (some m2.id) none none false (some 2)
        [m1, m2, m3, m4, m5] = [m3, m4] := by
      unfold query_messages_ordered_by_created_date
      have hfil : List.filter (fun m =>
          rowMatches (cursorFilters none none none none false false) m
            && lowerOk (some m2.created_date) (some m2.id) m
            && upperOk none none m)
          [m1, m2, m3, m4, m5] = [m3, m4, m5] := by
        rw [List.filter_cons_of_neg (by
          simp only [hrow m1 hd1, lowerOk, upperOk, Bool.true_and,
            Bool.and_true, decide_eq_true_eq]
          omega)]
        rw [List.filter_cons_of_neg (by
          simp only [hrow m2 hd2, lowerOk, upperOk, Bool.true_and,
            Bool.and_true, decide_eq_true_eq]
          omega)]
        rw [List.filter_cons_of_pos (by
          simp only [hrow m3 hd3, lowerOk, upperOk, Bool.true_and,
            Bool.and_true, decide_eq_true_eq]
          omega)]
        rw [List.filter_cons_of_pos (by
          simp only [hrow m4 hd4, lowerOk, upperOk, Bool.true_and,
            Bool.and_true, decide_eq_true_eq]
          omega)]
        rw [List.filter_cons_of_pos (by
          simp only [hrow m5 hd5, lowerOk, upperOk, Bool.true_and,
            Bool.and_true, decide_eq_true_eq]
          omega)]
        rfl
      have hs : List.Sorted (ordRel false) [m3, m4, m5] := by
        simp only [List.sorted_cons, List.mem_cons, List.not_mem_nil, or_false,
          forall_eq_or_imp, forall_eq, false_implies, forall_const,
          implies_true, and_true, List.sorted_nil, ordRel, if_false,
          Bool.false_eq_true, ascLE]
        omega
      simp only [hfil]
      rw [List.Sorted.insertionSort_eq hs]
      rfl
    rw [h2, hq]
    rfl

/-- C2 witness: the amended two-page example on the demo store. -/
theorem page_example_five_witness :
    get_messages_cursor none none none none none none false false 2
        (some false) [demoMsg 1 10, demoMsg 2 20, demoMsg 3 30, demoMsg 4 40,
          demoMsg 5 50]
      = .ok { prev := some (.idTs (demoMsg 1 10).id (demoMsg 1 10).created_date),
              next := some (.idTs (demoMsg 2 20).id (demoMsg 2 20).created_date),
              sort_key := "created_date", order := "asc",
              items := [demoMsg 1 10, demoMsg 2 20] }
    ∧ get_messages_cursor none
        (some (.idTs (demoMsg 2 20).id (demoMsg 2 20).created_date)) none none
        none none false false 2 (some false)
        [demoMsg 1 10, demoMsg 2 20, demoMsg 3 30, demoMsg 4 40, demoMsg 5 50]
      = .ok { prev := some (.idTs (demoMsg 3 30).id (demoMsg 3 30).created_date),
              next := some (.idTs (demoMsg 4 40).id (demoMsg 4 40).created_date),
              sort_key := "created_date", order := "asc",
              items := [demoMsg 3 30, demoMsg 4 40] } :=
  page_example_five (demoMsg 1 10) (demoMsg 2 20) (demoMsg 3 30)
    (demoMsg 4 40) (demoMsg 5 50) (by decide) (by decide) (by decide)
    (by decide) (by decide) (by decide) (by decide) (by decide) (by decide)

/-! ## Pagination round-trip machinery -/

theorem query_some (f : QueryFilters) (g gi lte li : Option Nat) (d : Bool)
    (k : Nat) (store : List Message) :
    query_messages_ordered_by_created_date f g gi lte li d (some k) store
      = ((store.filter fun m =>
            rowMatches f m && lowerOk g gi m && upperOk lte li m).insertionSort
          (ordRel d)).take k := rfl

theorem query_none (f : QueryFilters) (g gi lte li : Option Nat) (d : Bool)
    (store : List Message) :
    query_messages_ordered_by_created_date f g gi lte li d none store
      = (store.filter fun m =>
          rowMatches f m && lowerOk g gi m && upperOk lte li m).insertionSort
        (ordRel d) := rfl

theorem split_cursor_tok (tok : Option CursorTok) :
    split_cursor (tok.map CursorTok.toStr) = .ok (tokTs tok, tokId tok) := by
  rcases tok with _ | (⟨i, t⟩ | t) <;> rfl

theorem get_messages_cursor_tok (uid am un ac : Option Nat)
    (orf incDel : Bool) (k : Nat) (d : Bool) (store : List Message)
    (tok : Option CursorTok) :
    get_messages_cursor (if d then tok.map CursorTok.toStr else none)
        (if d then none else tok.map CursorTok.toStr)
        uid am un ac orf incDel k (some d) store
      = .ok (build_page k (if d then none else tokTs tok)
          (if d then tokTs tok else none) d
          (query_messages_ordered_by_created_date
            (cursorFilters uid am un ac orf incDel)
            (if d then none else tokTs tok) (if d then none else tokId tok)
            (if d then tokTs tok else none) (if d then tokId tok else none)
            d (some k) store)) := by
  cases d <;> rcases tok with _ | (⟨i, t⟩ | t) <;> rfl

theorem afterTok_none (d : Bool) (m : Message) : afterTok d none m = true := rfl

theorem afterTok_idTs (d : Bool) (x m : Message) :
    afterTok d (some (.idTs x.id x.created_date)) m = decide (ordLT d x m) := by
  cases d
  · simp only [afterTok, tokTs, tokId, Bool.false_eq_true, if_false, lowerOk]
    rw [decide_eq_decide]
    simp [ordLT, ascLT]
  · simp only [afterTok, tokTs, tokId, if_true, upperOk]
    rw [decide_eq_decide]
    simp [ordLT, ascLT]

/-- The cursor query with a continuation token is the token-filtered prefix
of the unpaginated query. -/
theorem query_tok (f : QueryFilters) (d : Bool) (k : Nat)
    (store : List Message) (tok : Option CursorTok)
    (hne : store.Pairwise (fun a b => a.id ≠ b.id)) :
    query_messages_ordered_by_created_date f
        (if d then none else tokTs tok) (if d then none else tokId tok)
        (if d then tokTs tok else none) (if d then tokId tok else none)
        d (some k) store
      = ((query_messages_ordered_by_created_date f none none none none d none
          store).filter (afterTok d tok)).take k := by
  rw [query_some, query_none]
  have hbase : (fun m : Message =>
      rowMatches f m && lowerOk none none m && upperOk none none m)
      = fun m => rowMatches f m := by
    funext m
    simp [lowerOk, upperOk]
  have hcomb : (fun m : Message => rowMatches f m
      && lowerOk (if d then none else tokTs tok)
        (if d then none else tokId tok) m
      && upperOk (if d then tokTs tok else none)
        (if d then tokId tok else none) m)
      = fun m => afterTok d tok m && rowMatches f m := by
    funext m
    cases d <;> rcases tok with _ | (⟨i, t⟩ | t) <;>
      simp [afterTok, tokTs, tokId, lowerOk, upperOk, Bool.and_comm]
  rw [hcomb, hbase, ← List.filter_filter]
  rw [insertionSort_filter_comm (afterTok d tok) d _ (hne.filter _)]

/-- The unpaginated query is strictly sorted when the store's ids are
pairwise distinct. -/
theorem query_none_pairwise (f : QueryFilters) (d : Bool)
    (store : List Message)
    (hne : store.Pairwise (fun a b => a.id ≠ b.id)) :
    (query_messages_ordered_by_created_date f none none none none d none
      store).Pairwise (ordLT d) := by
  rw [query_none]
  exact pairwise_ordLT_of_sorted (List.sorted_insertionSort _ _)
    (((List.perm_insertionSort _ _).pairwise_iff
      fun h => Ne.symm h).mpr (hne.filter _))

theorem filter_eq_drop_of_split (p : Message → Bool) (l : List Message)
    (n : Nat) (h1 : ∀ x ∈ l.take n, p x = false)
    (h2 : ∀ x ∈ l.drop n, p x = true) :
    l.filter p = l.drop n := by
  conv_lhs => rw [← List.take_append_drop n l]
  rw [List.filter_append,
    List.filter_eq_nil_iff.mpr fun a ha => by simp [h1 a ha],
    List.filter_eq_self.mpr h2]
  rfl

/-- Filtering a strictly sorted list by "strictly after the `j`-th element"
keeps exactly the suffix past position `j`. -/
theorem filter_after_getElem {d : Bool} {l : List Message}
    (hl : l.Pairwise (ordLT d)) {j : Nat} (hj : j < l.length) :
    l.filter (fun m => decide (ordLT d (l.get ⟨j, hj⟩) m)) = l.drop (j + 1) := by
  apply filter_eq_drop_of_split
  · intro x hx
    have hmem : x ∈ l.take j ++ (l.get ⟨j, hj⟩ :: []) := by
      have h0 : l.take (j + 1) = l.take j ++ (l.get ⟨j, hj⟩ :: []) := by
        rw [List.take_succ, List.getElem?_eq_getElem hj]
        simp [List.get_eq_getElem]
      rw [← h0]
      exact hx
    have hj_drop : l.get ⟨j, hj⟩ ∈ l.drop j := by
      have h0 := List.getElem_cons_drop l j hj
      rw [← h0]
      exact List.mem_cons_self _ _
    rcases List.mem_append.mp hmem with hx1 | hx1
    · have hrel : ordLT d x (l.get ⟨j, hj⟩) :=
        hl.rel_of_mem_take_of_mem_drop hx1 hj_drop
      simp only [decide_eq_false_iff_not]
      exact fun hcon => ordLT_asymm hcon hrel
    · have hx2 : x = l.get ⟨j, hj⟩ := by simpa using hx1
      subst hx2
      simp only [decide_eq_false_iff_not]
      exact fun hcon => ordLT_asymm hcon hcon
  · intro x hx
    have hj_take : l.get ⟨j, hj⟩ ∈ l.take (j + 1) := by
      rw [List.take_succ, List.getElem?_eq_getElem hj]
      exact List.mem_append.mpr (Or.inr (List.mem_cons_self _ _))
    simp only [decide_eq_true_eq]
    exact hl.rel_of_mem_take_of_mem_drop hj_take hx

theorem getLast?_take_drop (l : List Message) (j k : Nat) (hk : 1 ≤ k)
    (h : j + k ≤ l.length) :
    ((l.drop j).take k).getLast?
      = some (l.get ⟨j + k - 1, by omega⟩) := by
  rw [List.getLast?_eq_getElem?]
  have hlen : ((l.drop j).take k).length = k := by
    simp only [List.length_take, List.length_drop]
    omega
  rw [hlen, List.getElem?_take_of_lt (by omega : k - 1 < k),
    List.getElem?_drop, show j + (k - 1) = j + k - 1 by omega,
    List.getElem?_eq_getElem (by omega)]
  simp [List.get_eq_getElem]

theorem getLast?_drop_of_lt (l : List Message) (j : Nat) (hj : j < l.length) :
    (l.drop j).getLast? = some (l.get ⟨l.length - 1, by omega⟩) := by
  rw [List.getLast?_eq_getElem?, List.length_drop, List.getElem?_drop,
    show j + (l.length - j - 1) = l.length - 1 by omega,
    List.getElem?_eq_getElem (by omega)]
  simp [List.get_eq_getElem]

theorem build_page_next (k : Nat) (g lte : Option Nat) (d : Bool)
    (items : List Message) :
    (build_page k g lte d items).next
      = match items.getLast? with
        | some lastRow =>
          if items.length == k || lte.isSome
            then some (.idTs lastRow.id lastRow.created_date) else none
        | none => lte.map CursorTok.tsOnly := rfl

/-- Main invariant of the paginated scan: if the rows admitted by the
current continuation token form the suffix of the unpaginated query past
position `j`, the scan returns exactly that suffix. -/
theorem followNext_drop (uid am un ac : Option Nat) (orf incDel : Bool)
    (k : Nat) (d : Bool) (store : List Message) (hk : 1 ≤ k)
    (hne : store.Pairwise (fun a b => a.id ≠ b.id)) :
    ∀ (fuel : Nat) (tok : Option CursorTok) (j : Nat),
      (query_messages_ordered_by_created_date
          (cursorFilters uid am un ac orf incDel) none none none none d none
          store).filter (afterTok d tok)
        = (query_messages_ordered_by_created_date
            (cursorFilters uid am un ac orf incDel) none none none none d none
            store).drop j →
      (query_messages_ordered_by_created_date
          (cursorFilters uid am un ac orf incDel) none none none none d none
          store).length - j < fuel →
      followNext fuel uid am un ac orf incDel k d store tok
        = (query_messages_ordered_by_created_date
            (cursorFilters uid am un ac orf incDel) none none none none d none
            store).drop j := by
  intro fuel
  induction fuel with
  | zero =>
    intro tok j _ h2
    omega
  | succ fuel ih =>
    intro tok j h1 h2
    set L := query_messages_ordered_by_created_date
      (cursorFilters uid am un ac orf incDel) none none none none d none store
      with hLdef
    have hLp : L.Pairwise (ordLT d) := query_none_pairwise _ _ _ hne
    obtain ⟨K, hK⟩ : ∃ K, k = K + 1 := ⟨k - 1, by omega⟩
    simp only [followNext]
    rw [get_messages_cursor_tok, query_tok _ _ _ _ _ hne, ← hLdef, h1]
    cases hD : L.drop j with
    | nil =>
      simp [build_page_items]
    | cons hd tl =>
      have hjlen : j < L.length := by
        by_contra hcon
        have h0 : L.drop j = [] := List.drop_eq_nil_of_le (by omega)
        rw [h0] at hD
        simp at hD
      have hlenD : (hd :: tl).length = L.length - j := by
        rw [← hD, List.length_drop]
      by_cases hbig : k ≤ (hd :: tl).length
      · -- full page: the page is `take k` of the suffix and `next` points at
        -- its last row
        have hjK : j + k ≤ L.length := by omega
        have hnext : (build_page k (if d then none else tokTs tok)
            (if d then tokTs tok else none) d ((hd :: tl).take k)).next
            = some (.idTs (L.get ⟨j + k - 1, by omega⟩).id
                (L.get ⟨j + k - 1, by omega⟩).created_date) := by
          rw [build_page_next, ← hD, getLast?_take_drop L j k (by omega) hjK]
          have hlen : ((L.drop j).take k).length = k := by
            simp only [List.length_take, List.length_drop]
            omega
          simp [hlen]
        have hrem : L.filter (afterTok d
            (some (.idTs (L.get ⟨j + k - 1, by omega⟩).id
              (L.get ⟨j + k - 1, by omega⟩).created_date)))
            = L.drop (j + k) := by
          have h0 := filter_after_getElem hLp
            (show j + k - 1 < L.length by omega)
          rw [show j + k - 1 + 1 = j + k by omega] at h0
          rw [← h0]
          apply List.filter_congr
          intro m _
          exact afterTok_idTs d _ m
        have hih := ih (some (.idTs (L.get ⟨j + k - 1, by omega⟩).id
            (L.get ⟨j + k - 1, by omega⟩).created_date)) (j + k) hrem
          (by omega)
        subst hK
        rw [List.take_succ_cons] at hnext
        have hdrop : L.drop (j + (K + 1)) = (hd :: tl).drop (K + 1) := by
          rw [← hD, List.drop_drop, Nat.add_comm]
        simp only [List.take_succ_cons, build_page_items, List.isEmpty_cons,
          Bool.false_eq_true, if_false, hnext, hih]
        rw [hdrop, List.drop_succ_cons, List.cons_append, List.take_append_drop]
      · -- partial page: the page is the whole suffix
        have hitems : (hd :: tl).take k = hd :: tl :=
          List.take_of_length_le (by omega)
        have hcond : (((hd :: tl).take k).length == k) = false := by
          rw [hitems]
          simp only [beq_eq_false_iff_ne]
          omega
        cases d
        · -- ascending: no `lte` bound was passed, so `next` is absent
          have hnext : (build_page k (tokTs tok) none false
              ((hd :: tl).take k)).next = none := by
            rw [build_page_next]
            cases hgl : ((hd :: tl).take k).getLast? with
            | none =>
              rw [hitems] at hgl
              simp at hgl
            | some lastRow =>
              simp only [hcond, Bool.false_or, Option.isSome_none]
              rfl
          subst hK
          rw [List.take_succ_cons] at hnext
          simp only [List.take_succ_cons, build_page_items, List.isEmpty_cons,
            Bool.false_eq_true, if_false, hnext]
          rw [← List.take_succ_cons]
          exact hitems
        · -- descending with a token: `next` still points at the last row,
          -- and the follow-up page is empty
          rcases tok with _ | c
          · have hnext : (build_page k none (tokTs none) true
                ((hd :: tl).take k)).next = none := by
              rw [build_page_next]
              cases hgl : ((hd :: tl).take k).getLast? with
              | none =>
                rw [hitems] at hgl
                simp at hgl
              | some lastRow =>
                simp only [hcond, Bool.false_or, tokTs, Option.isSome_none]
                rfl
            subst hK
            rw [List.take_succ_cons] at hnext
            simp only [List.take_succ_cons, build_page_items, List.isEmpty_cons,
              Bool.false_eq_true, if_false, eq_self_iff_true, if_true, hnext]
            rw [← List.take_succ_cons]
            exact hitems
          · have hLpos : 1 ≤ L.length := by omega
            have hnext : (build_page k none (tokTs (some c)) true
                ((hd :: tl).take k)).next
                = some (.idTs (L.get ⟨L.length - 1, by omega⟩).id
                    (L.get ⟨L.length - 1, by omega⟩).created_date) := by
              rw [build_page_next, ← hD,
                show (L.drop j).take k = L.drop j by
                  rw [hD]; exact hitems,
                getLast?_drop_of_lt L j hjlen]
              have hsome : (tokTs (some c)).isSome = true := by
                cases c <;> rfl
              simp only [hsome, Bool.or_true]
              rfl
            have hrem : L.filter (afterTok true
                (some (.idTs (L.get ⟨L.length - 1, by omega⟩).id
                  (L.get ⟨L.length - 1, by omega⟩).created_date)))
                = L.drop L.length := by
              have h0 := filter_after_getElem hLp
                (show L.length - 1 < L.length by omega)
              rw [show L.length - 1 + 1 = L.length by omega] at h0
              rw [← h0]
              apply List.filter_congr
              intro m _
              exact afterTok_idTs true _ m
            have hih := ih (some (.idTs (L.get ⟨L.length - 1, by omega⟩).id
                (L.get ⟨L.length - 1, by omega⟩).created_date)) L.length hrem
              (by omega)
            subst hK
            rw [List.take_succ_cons] at hnext
            simp only [List.take_succ_cons, build_page_items, List.isEmpty_cons,
              Bool.false_eq_true, if_false, eq_self_iff_true, if_true, hnext,
              hih]
            rw [List.drop_length, List.cons_append, List.append_nil,
              ← List.take_succ_cons]
            exact hitems

/-- C1: for every fixed filter set, sort direction and page size `k ≥ 1`
(over a store with unique ids), concatenating the pages obtained by
repeatedly following the `next` cursor of the cursor endpoint, starting with
no bounds, yields exactly the list returned by the unpaginated query with
the same filters and order — same rows, same `(created_date, id)` order, no
duplicates and no gaps. -/
theorem pagination_roundtrip (uid am un ac : Option Nat) (orf incDel : Bool)
    (k : Nat) (d : Bool) (store : List Message) (hk : 1 ≤ k)
    (hne : store.Pairwise (fun a b => a.id ≠ b.id)) :
    followNext (store.length + 1) uid am un ac orf incDel k d store none
      = unboundedQuery uid am un ac orf incDel d store := by
  have hlen : (query_messages_ordered_by_created_date
      (cursorFilters uid am un ac orf incDel) none none none none d none
      store).length ≤ store.length := by
    rw [query_none, List.length_insertionSort]
    exact List.length_filter_le _ _
  have h1 : (query_messages_ordered_by_created_date
      (cursorFilters uid am un ac orf incDel) none none none none d none
      store).filter (afterTok d none)
      = (query_messages_ordered_by_created_date
          (cursorFilters uid am un ac orf incDel) none none none none d none
          store).drop 0 := by
    rw [List.drop_zero]
    exact List.filter_eq_self.mpr fun a _ => afterTok_none d a
  have h0 := followNext_drop uid am un ac orf incDel k d store hk hne
    (store.length + 1) none 0 h1 (by omega)
  rw [List.drop_zero] at h0
  exact h0

/-- C1 witness: on the demo store with page size 2, the ascending scan
returns the whole unpaginated ascending query. -/
theorem pagination_roundtrip_witness :
    followNext 6 none none none none false false 2 false demoStore none
      = unboundedQuery none none none none false false false demoStore :=
  pagination_roundtrip none none none none false false 2 false demoStore
    (by decide) (by decide)

end Oasst
